import Mathlib

/-!
Verification of the OSM download script (`osm.py`).

The script has three components:

* `divide_area_to_bboxes` — pure grid tiling of a lat/lon rectangle;
* `merge_osm_files` — line-based concatenation of `.osm` files with
  envelope lines stripped by prefix matching;
* `fetch_osm_by_bbox` — one HTTP POST per tile, response written to a
  file, failures logged and swallowed, with a fixed sleep on success.

Numeric values (Python floats) are modelled as exact rationals `ℚ`;
Python's `int(...)` truncation toward zero is modelled by `pyint`.
Concrete IEEE-double rounding effects are outside this model, so only
arithmetic-generic properties of the tiler are stated, at float-exact
inputs where witnesses need concrete values.
The effectful fetch/merge code is modelled by pure functions: file
contents are lists of lines, and the fetcher is a function from the
network outcome to the trace of its side effects.
-/

attribute [local semireducible] Rat.add Rat.sub Rat.mul Rat.inv Rat.ofScientific

/-- A bounding box as produced by `divide_area_to_bboxes`: the 4-tuple
`(min_lat, min_lon, max_lat, max_lon)` from the source, as a structure. -/
structure Bbox where
  min_lat : ℚ
  min_lon : ℚ
  max_lat : ℚ
  max_lon : ℚ
deriving DecidableEq, Repr

/-- Python's `int(q)` on a real value: truncation toward zero. -/
def pyint (q : ℚ) : ℤ :=
  if 0 ≤ q then ⌊q⌋ else ⌈q⌉

/-- Number of grid rows: `int((max_lat - min_lat) / step) + 1`, as the
size of Python's `range` (negative values give an empty range). -/
def lat_steps (min_lat max_lat step : ℚ) : ℕ :=
  (pyint ((max_lat - min_lat) / step) + 1).toNat

/-- Number of grid columns: `int((max_lon - min_lon) / step) + 1`. -/
def lon_steps (min_lon max_lon step : ℚ) : ℕ :=
  (pyint ((max_lon - min_lon) / step) + 1).toNat

/-- The bbox built in the loop body for indices `(i, j)`. -/
def grid_tile (min_lat min_lon max_lat max_lon step : ℚ) (i j : ℕ) : Bbox :=
  { min_lat := min_lat + i * step
    min_lon := min_lon + j * step
    max_lat := min (min_lat + (i + 1) * step) max_lat
    max_lon := min (min_lon + (j + 1) * step) max_lon }

/-- `divide_area_to_bboxes` from `osm.py`: the nested `for i` / `for j`
loops appending one bbox per iteration, in row-major order. -/
def divide_area_to_bboxes (min_lat max_lat min_lon max_lon step : ℚ) : List Bbox :=
  (List.range (lat_steps min_lat max_lat step)).flatMap fun i =>
    (List.range (lon_steps min_lon max_lon step)).map fun j =>
      grid_tile min_lat min_lon max_lat max_lon step i j

/-- Python's `line.startswith(pre)` — the line-prefix test of the source
(used with the exact prefixes `<?xml`, `<osm`, `</osm`) — on the character
list of the string. -/
def strStartsWith (line pre : String) : Bool :=
  pre.data.isPrefixOf line.data

/-- Python's `name.endswith(suf)`, on the character list of the string. -/
def strEndsWith (name suf : String) : Bool :=
  suf.data.isSuffixOf name.data

/-- True on the lines `merge_osm_files` skips. -/
def isEnvelopeLine (line : String) : Bool :=
  strStartsWith line "<?xml" || strStartsWith line "<osm" || strStartsWith line "</osm"

/-- The inner `for line in infile` loop of `merge_osm_files`: copy every line
to the output except envelope-prefixed ones. -/
def copyFileLines (out : List String) : List String → List String
  | [] => out
  | line :: rest =>
    if isEnvelopeLine line then copyFileLines out rest
    else copyFileLines (out ++ [line]) rest

/-- `merge_osm_files` from `osm.py`, modelled on a directory listing given as
`(filename, lines)` pairs in listing order; the returned list of lines is the
content written to the output file. -/
def merge_osm_files (inputFolder : List (String × List String)) : List String :=
  let files := inputFolder.filter fun f => strEndsWith f.1 ".osm"
  let headerOut := ["<?xml version=\"1.0\" encoding=\"UTF-8\"?>", "<osm version=\"0.6\">"]
  let bodyOut := files.foldl (fun acc f => copyFileLines acc f.2) headerOut
  bodyOut ++ ["</osm>"]

/-- One observable side effect of the fetcher. -/
inductive Ev where
  | print (msg : String)
  | httpPost (url : String) (body : String)
  | fileWrite (path : String) (content : String)
  | sleep (seconds : ℕ)
deriving DecidableEq, Repr

/-- Outcome of `requests.post` followed by `response.raise_for_status`:
either the body of a successful response, or the message of the
`requests.exceptions.RequestException` raised on a transport-layer failure
or an HTTP error status. -/
inductive NetResult where
  | success (body : String)
  | failure (errMsg : String)
deriving DecidableEq, Repr

/-- The fixed Overpass endpoint of the source. -/
def overpass_url : String :=
  "https://overpass-api.de/api/interpreter"

/-- The four bbox components as printed into the query. -/
def bboxCoords (b : Bbox) : String :=
  toString b.min_lat ++ "," ++ toString b.min_lon ++ ","
    ++ toString b.max_lat ++ "," ++ toString b.max_lon

/-- The tuple rendering used by the progress messages. -/
def bboxStr (b : Bbox) : String :=
  "(" ++ toString b.min_lat ++ ", " ++ toString b.min_lon ++ ", "
    ++ toString b.max_lat ++ ", " ++ toString b.max_lon ++ ")"

/-- The Overpass QL payload of `fetch_osm_by_bbox`: node/way/relation
clauses over the bbox, full metadata output, 3600 s server-side timeout. -/
def buildQuery (b : Bbox) : String :=
  "\n    [out:xml][timeout:3600];\n    (\n      node(" ++ bboxCoords b
    ++ ");\n      way(" ++ bboxCoords b
    ++ ");\n      relation(" ++ bboxCoords b
    ++ ");\n    );\n    out meta;\n    "

/-- `fetch_osm_by_bbox` from `osm.py`, as the trace of its side effects for a
given network outcome. On success: progress line, POST, write of the body to
`output_file`, saved line, `time.sleep(2)`. On failure the `except` block
prints the error and the function returns normally — no write, no sleep. -/
def fetch_osm_by_bbox (bbox : Bbox) (output_file : String) (net : NetResult) : List Ev :=
  match net with
  | .success body =>
    [.print ("正在抓取区域 " ++ bboxStr bbox ++ " 数据..."),
     .httpPost overpass_url (buildQuery bbox),
     .fileWrite output_file body,
     .print ("区域 " ++ bboxStr bbox ++ " 的数据已保存为 " ++ output_file),
     .sleep 2]
  | .failure e =>
    [.print ("正在抓取区域 " ++ bboxStr bbox ++ " 数据..."),
     .httpPost overpass_url (buildQuery bbox),
     .print ("请求失败：" ++ e)]

/-- A file system: map from path to file content. -/
def FileSys : Type := String → Option String

/-- Effect of one event on the file system: only writes change it. -/
def applyEv (fs : FileSys) : Ev → FileSys
  | .fileWrite path content => fun p => if p = path then some content else fs p
  | _ => fs

/-- Effect of a trace of events on the file system. -/
def applyEvents (fs : FileSys) (evs : List Ev) : FileSys :=
  evs.foldl applyEv fs

/-- Output path of the `i`-th (0-based) cell in `main`. -/
def part_file (i : ℕ) : String :=
  "osm_data/guangzhou_part_" ++ toString (i + 1) ++ ".osm"

/-- The `for i, bbox in enumerate(bboxes)` driver loop of `main`, given the
network outcome of each cell. -/
def runFetchLoop (bboxes : List Bbox) (net : ℕ → NetResult) : List Ev :=
  bboxes.enum.flatMap fun p => fetch_osm_by_bbox p.2 (part_file p.1) (net p.1)

/-- A step of `main`: either a fetcher side effect or the final merge call. -/
inductive MainEv where
  | fetchEv (e : Ev)
  | mergeRun (input_folder : String) (output_file : String)
deriving DecidableEq, Repr

/-- The trace of `main`: the fetch loop over the Guangzhou grid, then the
merge of `osm_data` into `guangzhou_full.osm`. -/
def main_trace (net : ℕ → NetResult) : List MainEv :=
  (runFetchLoop (divide_area_to_bboxes 22.5 23.5 112.5 114.0 0.1) net).map MainEv.fetchEv
    ++ [MainEv.mergeRun "osm_data" "guangzhou_full.osm"]

/-- Length of the row-major double loop: `m` rows of `n` columns. -/
theorem flatRange_length {α : Type} (m n : ℕ) (f : ℕ → ℕ → α) :
    ((List.range m).flatMap fun i => (List.range n).map (f i)).length = m * n := by
  induction m with
  | zero => simp
  | succ m ih =>
    rw [List.range_succ, List.flatMap_append]
    simp [ih, Nat.succ_mul]

/-- Element at flat index `i * n + j` of the row-major double loop. -/
theorem flatRange_getElem {α : Type} (m n : ℕ) (f : ℕ → ℕ → α) (i j : ℕ)
    (hi : i < m) (hj : j < n) :
    ((List.range m).flatMap fun i => (List.range n).map (f i))[i * n + j]? = some (f i j) := by
  induction m with
  | zero => omega
  | succ m ih =>
    rw [List.range_succ, List.flatMap_append]
    rcases Nat.lt_succ_iff_lt_or_eq.mp hi with h | rfl
    · rw [List.getElem?_append_left]
      · exact ih h
      · rw [flatRange_length]
        have : (i + 1) * n ≤ m * n := Nat.mul_le_mul_right n h
        calc i * n + j < i * n + n := by omega
          _ = (i + 1) * n := by ring
          _ ≤ m * n := this
    · rw [List.getElem?_append_right (by rw [flatRange_length]; omega)]
      rw [flatRange_length]
      simp [hj, List.getElem?_range]

/-- Converse characterization: any element of the row-major double loop list
sits at a flat index below `m * n` and is the tile of row `k / n`, column `k % n`. -/
theorem flatRange_getElem_inv {α : Type} (m n : ℕ) (f : ℕ → ℕ → α) (k : ℕ) (b : α)
    (hb : ((List.range m).flatMap fun i => (List.range n).map (f i))[k]? = some b) :
    k < m * n ∧ 0 < n ∧ b = f (k / n) (k % n) := by
  have hk : k < m * n := by
    have := List.getElem?_eq_some.mp hb
    rcases this with ⟨h, _⟩
    rwa [flatRange_length] at h
  have hn : 0 < n := by
    rcases Nat.eq_zero_or_pos n with rfl | hn
    · omega
    · exact hn
  refine ⟨hk, hn, ?_⟩
  have hdiv : k / n < m := Nat.div_lt_of_lt_mul (by rwa [Nat.mul_comm] at hk)
  have hmod : k % n < n := Nat.mod_lt _ hn
  have hsplit : k / n * n + k % n = k := Nat.div_add_mod' k n
  have := flatRange_getElem m n f (k / n) (k % n) hdiv hmod
  rw [hsplit, hb] at this
  exact Option.some_injective _ this

/-- C1: for valid inputs, the tile at grid position `(i, j)` appears at flat
index `i * col_count + j` of `divide_area_to_bboxes` (row-major order) and
equals `(min_lat + i*step, min_lon + j*step, min(min_lat + (i+1)*step, max_lat),
min(min_lon + (j+1)*step, max_lon))`. -/
theorem divide_area_row_major (min_lat max_lat min_lon max_lon step : ℚ)
    (_h1 : min_lat ≤ max_lat) (_h2 : min_lon ≤ max_lon) (_h3 : 0 < step)
    (i j : ℕ) (hi : i < lat_steps min_lat max_lat step)
    (hj : j < lon_steps min_lon max_lon step) :
    (divide_area_to_bboxes min_lat max_lat min_lon max_lon step)[i * lon_steps min_lon max_lon step + j]? =
      some ⟨min_lat + i * step, min_lon + j * step,
            min (min_lat + (i + 1) * step) max_lat,
            min (min_lon + (j + 1) * step) max_lon⟩ :=
  flatRange_getElem _ _ _ i j hi hj

/-- Witness for C1 at `(0, 1, 0, 1, step = 1)`, grid position `(0, 0)`. -/
theorem divide_area_row_major_witness :
    (0:ℚ) ≤ 1 ∧ (0:ℚ) < 1 ∧ 0 < lat_steps 0 1 1 ∧ 0 < lon_steps 0 1 1 ∧
      (divide_area_to_bboxes 0 1 0 1 1)[0 * lon_steps 0 1 1 + 0]? =
        some ⟨0, 0, 1, 1⟩ := by
  refine ⟨by decide, by decide, by decide, by decide, ?_⟩
  have h := divide_area_row_major 0 1 0 1 1 (by decide) (by decide) (by decide)
    0 0 (by decide) (by decide)
  exact h.trans (by decide)

/-- C2: for valid inputs, the number of tiles is
`(floor((max_lat - min_lat)/step) + 1) * (floor((max_lon - min_lon)/step) + 1)`,
the documented over-counting formula preserved as-is. -/
theorem divide_area_count (min_lat max_lat min_lon max_lon step : ℚ)
    (h1 : min_lat ≤ max_lat) (h2 : min_lon ≤ max_lon) (h3 : 0 < step) :
    ((divide_area_to_bboxes min_lat max_lat min_lon max_lon step).length : ℤ) =
      (⌊(max_lat - min_lat) / step⌋ + 1) * (⌊(max_lon - min_lon) / step⌋ + 1) := by
  have hlat : (0:ℚ) ≤ (max_lat - min_lat) / step := div_nonneg (by linarith) h3.le
  have hlon : (0:ℚ) ≤ (max_lon - min_lon) / step := div_nonneg (by linarith) h3.le
  have hflat : (0:ℤ) ≤ ⌊(max_lat - min_lat) / step⌋ := Int.floor_nonneg.mpr hlat
  have hflon : (0:ℤ) ≤ ⌊(max_lon - min_lon) / step⌋ := Int.floor_nonneg.mpr hlon
  rw [divide_area_to_bboxes, flatRange_length, lat_steps, lon_steps, pyint, pyint,
    if_pos hlat, if_pos hlon]
  push_cast [Int.toNat_of_nonneg (by omega : (0:ℤ) ≤ ⌊(max_lat - min_lat) / step⌋ + 1),
    Int.toNat_of_nonneg (by omega : (0:ℤ) ≤ ⌊(max_lon - min_lon) / step⌋ + 1)]
  ring

/-- The column count has the same formula as the row count. -/
theorem lon_steps_eq_lat_steps (a b step : ℚ) : lon_steps a b step = lat_steps a b step := rfl

/-- Any row index below `lat_steps` keeps the row base inside the range:
`a + i * step ≤ b`. -/
theorem grid_base_le (a b step : ℚ) (hab : a ≤ b) (hs : 0 < step) (i : ℕ)
    (hi : i < lat_steps a b step) : a + i * step ≤ b := by
  have hq : (0:ℚ) ≤ (b - a) / step := div_nonneg (by linarith) hs.le
  rw [lat_steps, pyint, if_pos hq] at hi
  have hiz : (i : ℤ) < ⌊(b - a) / step⌋ + 1 := Int.lt_toNat.mp hi
  have hile : (i : ℤ) ≤ ⌊(b - a) / step⌋ := Int.lt_add_one_iff.mp hiz
  have hqle : ((i : ℚ)) ≤ (b - a) / step := by
    calc ((i : ℚ)) = (((i : ℤ) : ℚ)) := by push_cast; ring
      _ ≤ ((⌊(b - a) / step⌋ : ℤ) : ℚ) := by exact_mod_cast hile
      _ ≤ (b - a) / step := Int.floor_le _
  have hmul : (i : ℚ) * step ≤ ((b - a) / step) * step :=
    mul_le_mul_of_nonneg_right hqle hs.le
  rw [div_mul_cancel₀ _ (ne_of_gt hs)] at hmul
  linarith

/-- C4: every returned bbox satisfies min ≤ max on each axis, and its max
components never exceed the input `max_lat` / `max_lon`. -/
theorem divide_area_invariant (min_lat max_lat min_lon max_lon step : ℚ)
    (h1 : min_lat ≤ max_lat) (h2 : min_lon ≤ max_lon) (h3 : 0 < step) :
    ∀ b ∈ divide_area_to_bboxes min_lat max_lat min_lon max_lon step,
      b.min_lat ≤ b.max_lat ∧ b.min_lon ≤ b.max_lon ∧
        b.max_lat ≤ max_lat ∧ b.max_lon ≤ max_lon := by
  intro b hb
  rw [divide_area_to_bboxes] at hb
  simp only [List.mem_flatMap, List.mem_range, List.mem_map] at hb
  obtain ⟨i, hi, j, hj, rfl⟩ := hb
  have hlat := grid_base_le min_lat max_lat step h1 h3 i hi
  have hlon := grid_base_le min_lon max_lon step h2 h3 j
    (by rwa [lon_steps_eq_lat_steps] at hj)
  have histep : ((i : ℚ)) * step ≤ ((i : ℚ) + 1) * step :=
    mul_le_mul_of_nonneg_right (by linarith) h3.le
  have hjstep : ((j : ℚ)) * step ≤ ((j : ℚ) + 1) * step :=
    mul_le_mul_of_nonneg_right (by linarith) h3.le
  exact ⟨le_min (add_le_add_left histep _) hlat, le_min (add_le_add_left hjstep _) hlon,
    min_le_right _ _, min_le_right _ _⟩

/-- Witness for C4 at `(0, 1, 0, 1, step = 1)`. -/
theorem divide_area_invariant_witness :
    (0:ℚ) ≤ 1 ∧ (0:ℚ) < 1 ∧
      ∀ b ∈ divide_area_to_bboxes 0 1 0 1 1,
        b.min_lat ≤ b.max_lat ∧ b.min_lon ≤ b.max_lon ∧
          b.max_lat ≤ 1 ∧ b.max_lon ≤ 1 :=
  ⟨by decide, by decide, divide_area_invariant 0 1 0 1 1 (by decide) (by decide) (by decide)⟩

/-- Half-open row intervals of width `step` are pairwise disjoint: the row
index containing `x` is unique. -/
theorem row_ix_unique (a step x : ℚ) (hs : 0 < step) {i i' : ℕ}
    (hl : a + i * step ≤ x) (hr : x < a + ((i : ℚ) + 1) * step)
    (hl' : a + i' * step ≤ x) (hr' : x < a + ((i' : ℚ) + 1) * step) : i = i' := by
  by_contra hne
  rcases Nat.lt_or_ge i i' with h | h
  · have hc : ((i : ℚ) + 1) ≤ (i' : ℚ) := by exact_mod_cast h
    have := mul_le_mul_of_nonneg_right hc hs.le
    linarith
  · have h2 : i' < i := Nat.lt_of_le_of_ne h fun e => hne e.symm
    have hc : ((i' : ℚ) + 1) ≤ (i : ℚ) := by exact_mod_cast h2
    have := mul_le_mul_of_nonneg_right hc hs.le
    linarith

/-- Every `x` in `[a, b]` lies in the half-open interval of some row index
below `lat_steps a b step`. -/
theorem row_ix_exists (a b step x : ℚ) (hab : a ≤ b) (hs : 0 < step)
    (hx1 : a ≤ x) (hx2 : x ≤ b) :
    ∃ i : ℕ, i < lat_steps a b step ∧
      a + i * step ≤ x ∧ x < a + ((i : ℚ) + 1) * step := by
  have hq : (0:ℚ) ≤ (x - a) / step := div_nonneg (by linarith) hs.le
  have hqd : (0:ℚ) ≤ (b - a) / step := div_nonneg (by linarith) hs.le
  have h0 : (0:ℤ) ≤ ⌊(x - a) / step⌋ := Int.floor_nonneg.mpr hq
  have hcast : ((⌊(x - a) / step⌋.toNat : ℕ) : ℚ) = ((⌊(x - a) / step⌋ : ℤ) : ℚ) := by
    exact_mod_cast Int.toNat_of_nonneg h0
  refine ⟨⌊(x - a) / step⌋.toNat, ?_, ?_, ?_⟩
  · rw [lat_steps, pyint, if_pos hqd]
    have hmono : ⌊(x - a) / step⌋ ≤ ⌊(b - a) / step⌋ :=
      Int.floor_le_floor (by gcongr)
    omega
  · have hfl : ((⌊(x - a) / step⌋ : ℤ) : ℚ) * step ≤ x - a := by
      have h := mul_le_mul_of_nonneg_right (Int.floor_le ((x - a) / step)) hs.le
      rwa [div_mul_cancel₀ _ (ne_of_gt hs)] at h
    rw [hcast]
    linarith
  · have hfr : x - a < (((⌊(x - a) / step⌋ : ℤ) : ℚ) + 1) * step := by
      have h := mul_lt_mul_of_pos_right (Int.lt_floor_add_one ((x - a) / step)) hs
      rwa [div_mul_cancel₀ _ (ne_of_gt hs)] at h
    rw [hcast]
    linarith

/-- Two distinct rows have disjoint open intervals: a point strictly right of
the later row's base cannot be strictly left of the earlier row's top. -/
theorem no_open_overlap (a step x : ℚ) (hs : 0 < step) {i i' : ℕ} (hlt : i < i')
    (h1 : x < a + ((i : ℚ) + 1) * step) (h2 : a + (i' : ℚ) * step < x) : False := by
  have hc : ((i : ℚ) + 1) ≤ (i' : ℚ) := by exact_mod_cast hlt
  have := mul_le_mul_of_nonneg_right hc hs.le
  linarith

/-- C3: every point of the input rectangle lies in the half-open square
`[tile_min, tile_min + step)` (on each axis) of exactly one listed tile, and
two tiles at distinct positions of the output never share an interior point,
so distinct tiles overlap at most on boundary coordinate values. -/
theorem divide_area_partition (min_lat max_lat min_lon max_lon step : ℚ)
    (h1 : min_lat ≤ max_lat) (h2 : min_lon ≤ max_lon) (h3 : 0 < step) :
    (∀ x y : ℚ, min_lat ≤ x → x ≤ max_lat → min_lon ≤ y → y ≤ max_lon →
      ∃! k : ℕ, ∃ b : Bbox,
        (divide_area_to_bboxes min_lat max_lat min_lon max_lon step)[k]? = some b ∧
        b.min_lat ≤ x ∧ x < b.min_lat + step ∧
        b.min_lon ≤ y ∧ y < b.min_lon + step) ∧
    (∀ k₁ k₂ : ℕ, ∀ b₁ b₂ : Bbox, k₁ ≠ k₂ →
      (divide_area_to_bboxes min_lat max_lat min_lon max_lon step)[k₁]? = some b₁ →
      (divide_area_to_bboxes min_lat max_lat min_lon max_lon step)[k₂]? = some b₂ →
      ∀ x y : ℚ, ¬(b₁.min_lat < x ∧ x < b₁.max_lat ∧ b₁.min_lon < y ∧ y < b₁.max_lon ∧
        b₂.min_lat < x ∧ x < b₂.max_lat ∧ b₂.min_lon < y ∧ y < b₂.max_lon)) := by
  constructor
  · intro x y hx1 hx2 hy1 hy2
    obtain ⟨i, hi, hil, hir⟩ := row_ix_exists min_lat max_lat step x h1 h3 hx1 hx2
    obtain ⟨j, hj0, hjl, hjr⟩ := row_ix_exists min_lon max_lon step y h2 h3 hy1 hy2
    have hj : j < lon_steps min_lon max_lon step := by rwa [lon_steps_eq_lat_steps]
    refine ⟨i * lon_steps min_lon max_lon step + j,
      ⟨grid_tile min_lat min_lon max_lat max_lon step i j,
        flatRange_getElem _ _ _ i j hi hj, hil, ?_, hjl, ?_⟩, ?_⟩
    · show x < min_lat + (i : ℚ) * step + step
      linarith
    · show y < min_lon + (j : ℚ) * step + step
      linarith
    · rintro k' ⟨b', hb', hbl, hbr, hcl, hcr⟩
      obtain ⟨hk', hn, rfl⟩ :=
        flatRange_getElem_inv (lat_steps min_lat max_lat step)
          (lon_steps min_lon max_lon step)
          (grid_tile min_lat min_lon max_lat max_lon step) k' b' hb'
      set n := lon_steps min_lon max_lon step with hndef
      have hbl' : min_lat + ((k' / n : ℕ) : ℚ) * step ≤ x := hbl
      have hbr' : x < min_lat + (((k' / n : ℕ) : ℚ) + 1) * step := by
        have : x < min_lat + ((k' / n : ℕ) : ℚ) * step + step := hbr
        linarith
      have hcl' : min_lon + ((k' % n : ℕ) : ℚ) * step ≤ y := hcl
      have hcr' : y < min_lon + (((k' % n : ℕ) : ℚ) + 1) * step := by
        have : y < min_lon + ((k' % n : ℕ) : ℚ) * step + step := hcr
        linarith
      have hieq : k' / n = i := row_ix_unique min_lat step x h3 hbl' hbr' hil hir
      have hjeq : k' % n = j := row_ix_unique min_lon step y h3 hcl' hcr' hjl hjr
      calc k' = k' / n * n + k' % n := (Nat.div_add_mod' k' n).symm
        _ = i * n + j := by rw [hieq, hjeq]
  · intro k₁ k₂ b₁ b₂ hne hb₁ hb₂ x y hcontra
    obtain ⟨hk₁, hn, rfl⟩ :=
      flatRange_getElem_inv (lat_steps min_lat max_lat step)
        (lon_steps min_lon max_lon step)
        (grid_tile min_lat min_lon max_lat max_lon step) k₁ b₁ hb₁
    obtain ⟨hk₂, -, rfl⟩ :=
      flatRange_getElem_inv (lat_steps min_lat max_lat step)
        (lon_steps min_lon max_lon step)
        (grid_tile min_lat min_lon max_lat max_lon step) k₂ b₂ hb₂
    set n := lon_steps min_lon max_lon step with hndef
    obtain ⟨ha1, ha2, ha3, ha4, ha5, ha6, ha7, ha8⟩ := hcontra
    have hxa : x < min_lat + (((k₁ / n : ℕ) : ℚ) + 1) * step :=
      lt_of_lt_of_le ha2 (min_le_left _ _)
    have hxb : x < min_lat + (((k₂ / n : ℕ) : ℚ) + 1) * step :=
      lt_of_lt_of_le ha6 (min_le_left _ _)
    have hya : y < min_lon + (((k₁ % n : ℕ) : ℚ) + 1) * step :=
      lt_of_lt_of_le ha4 (min_le_left _ _)
    have hyb : y < min_lon + (((k₂ % n : ℕ) : ℚ) + 1) * step :=
      lt_of_lt_of_le ha8 (min_le_left _ _)
    have hd1 : min_lat + ((k₁ / n : ℕ) : ℚ) * step < x := ha1
    have hd2 : min_lat + ((k₂ / n : ℕ) : ℚ) * step < x := ha5
    have hd3 : min_lon + ((k₁ % n : ℕ) : ℚ) * step < y := ha3
    have hd4 : min_lon + ((k₂ % n : ℕ) : ℚ) * step < y := ha7
    rcases Nat.lt_trichotomy (k₁ / n) (k₂ / n) with hq | hq | hq
    · exact no_open_overlap min_lat step x h3 hq hxa hd2
    · rcases Nat.lt_trichotomy (k₁ % n) (k₂ % n) with hr | hr | hr
      · exact no_open_overlap min_lon step y h3 hr hya hd4
      · exact hne (by
          calc k₁ = k₁ / n * n + k₁ % n := (Nat.div_add_mod' k₁ n).symm
            _ = k₂ / n * n + k₂ % n := by rw [hq, hr]
            _ = k₂ := Nat.div_add_mod' k₂ n)
      · exact no_open_overlap min_lon step y h3 hr hyb hd3
    · exact no_open_overlap min_lat step x h3 hq hxb hd1

/-- Witness for C3 at `(0, 1, 0, 1, step = 1)`. -/
theorem divide_area_partition_witness :
    (0:ℚ) ≤ 1 ∧ (0:ℚ) < 1 ∧
      ((∀ x y : ℚ, (0:ℚ) ≤ x → x ≤ 1 → (0:ℚ) ≤ y → y ≤ 1 →
        ∃! k : ℕ, ∃ b : Bbox,
          (divide_area_to_bboxes 0 1 0 1 1)[k]? = some b ∧
          b.min_lat ≤ x ∧ x < b.min_lat + 1 ∧
          b.min_lon ≤ y ∧ y < b.min_lon + 1) ∧
      (∀ k₁ k₂ : ℕ, ∀ b₁ b₂ : Bbox, k₁ ≠ k₂ →
        (divide_area_to_bboxes 0 1 0 1 1)[k₁]? = some b₁ →
        (divide_area_to_bboxes 0 1 0 1 1)[k₂]? = some b₂ →
        ∀ x y : ℚ, ¬(b₁.min_lat < x ∧ x < b₁.max_lat ∧ b₁.min_lon < y ∧ y < b₁.max_lon ∧
          b₂.min_lat < x ∧ x < b₂.max_lat ∧ b₂.min_lon < y ∧ y < b₂.max_lon))) :=
  ⟨by decide, by decide, divide_area_partition 0 1 0 1 1 (by decide) (by decide) (by decide)⟩

/-- Witness for C2 at `(0, 1, 0, 1, step = 1)`. -/
theorem divide_area_count_witness :
    (0:ℚ) ≤ 1 ∧ (0:ℚ) < 1 ∧
      ((divide_area_to_bboxes 0 1 0 1 1).length : ℤ) =
        (⌊((1:ℚ) - 0) / 1⌋ + 1) * (⌊((1:ℚ) - 0) / 1⌋ + 1) :=
  ⟨by decide, by decide, divide_area_count 0 1 0 1 1 (by decide) (by decide) (by decide)⟩

/-- The copy loop appends exactly the non-envelope lines, in order. -/
theorem copyFileLines_eq (out : List String) (lines : List String) :
    copyFileLines out lines = out ++ lines.filter fun l => !(isEnvelopeLine l) := by
  induction lines generalizing out with
  | nil => simp [copyFileLines]
  | cons l rest ih =>
    by_cases h : isEnvelopeLine l
    · simp [copyFileLines, h, ih]
    · simp [copyFileLines, h, ih]

/-- Folding the copy loop over the files concatenates their filtered bodies. -/
theorem merge_fold_eq (files : List (String × List String)) (out : List String) :
    files.foldl (fun acc f => copyFileLines acc f.2) out =
      out ++ files.flatMap fun f => f.2.filter fun l => !(isEnvelopeLine l) := by
  induction files generalizing out with
  | nil => simp
  | cons f rest ih =>
    rw [List.foldl_cons, copyFileLines_eq, ih, List.flatMap_cons, List.append_assoc]

/-- Declarative form of the merge output. -/
theorem merge_osm_files_eq (d : List (String × List String)) :
    merge_osm_files d =
      ["<?xml version=\"1.0\" encoding=\"UTF-8\"?>", "<osm version=\"0.6\">"] ++
        ((d.filter fun f => strEndsWith f.1 ".osm").flatMap fun f =>
          f.2.filter fun l => !(isEnvelopeLine l)) ++ ["</osm>"] := by
  rw [merge_osm_files, merge_fold_eq]

/-- Every line of the merged body is a non-envelope line. -/
theorem merge_body_not_envelope (d : List (String × List String)) :
    ∀ l ∈ (d.filter fun f => strEndsWith f.1 ".osm").flatMap fun f =>
        f.2.filter fun l => !(isEnvelopeLine l),
      isEnvelopeLine l = false := by
  intro l hl
  obtain ⟨f, _, hlf⟩ := List.mem_flatMap.mp hl
  have h := (List.mem_filter.mp hlf).2
  simpa using h

/-- C5: the merge output is exactly one XML declaration line, one root open
tag line, then for each `.osm` file of the listing (non-`.osm` files omitted)
every line of that file except lines with prefix `<?xml`, `<osm` or `</osm`,
and finally one closing tag; the three envelope lines each occur exactly once
in the output, for every input. -/
theorem merge_osm_files_spec (d : List (String × List String)) :
    merge_osm_files d =
      ["<?xml version=\"1.0\" encoding=\"UTF-8\"?>", "<osm version=\"0.6\">"] ++
        ((d.filter fun f => strEndsWith f.1 ".osm").flatMap fun f =>
          f.2.filter fun l => !(strStartsWith l "<?xml" || strStartsWith l "<osm" ||
            strStartsWith l "</osm")) ++ ["</osm>"] ∧
    (merge_osm_files d).count "<?xml version=\"1.0\" encoding=\"UTF-8\"?>" = 1 ∧
    (merge_osm_files d).count "<osm version=\"0.6\">" = 1 ∧
    (merge_osm_files d).count "</osm>" = 1 := by
  have hzero : ∀ s : String, isEnvelopeLine s = true →
      List.count s ((d.filter fun f => strEndsWith f.1 ".osm").flatMap fun f =>
        f.2.filter fun l => !(isEnvelopeLine l)) = 0 := by
    intro s hs
    refine List.count_eq_zero_of_not_mem fun hm => ?_
    have hx := merge_body_not_envelope d s hm
    rw [hx] at hs
    exact Bool.false_ne_true hs
  refine ⟨merge_osm_files_eq d, ?_, ?_, ?_⟩
  · rw [merge_osm_files_eq, List.count_append, List.count_append, hzero _ (by decide)]
    decide
  · rw [merge_osm_files_eq, List.count_append, List.count_append, hzero _ (by decide)]
    decide
  · rw [merge_osm_files_eq, List.count_append, List.count_append, hzero _ (by decide)]
    decide

/-- C10: when no listed file ends in `.osm`, the merge output is exactly the
three envelope lines with no body in between. -/
theorem merge_osm_files_empty (d : List (String × List String))
    (h : ∀ f ∈ d, strEndsWith f.1 ".osm" = false) :
    merge_osm_files d =
      ["<?xml version=\"1.0\" encoding=\"UTF-8\"?>", "<osm version=\"0.6\">", "</osm>"] := by
  have hfilter : (d.filter fun f => strEndsWith f.1 ".osm") = [] := by
    rw [List.filter_eq_nil_iff]
    intro f hf
    simp [h f hf]
  rw [merge_osm_files_eq, hfilter]
  rfl

/-- Witness for C10 on a listing holding a single non-`.osm` file. -/
theorem merge_osm_files_empty_witness :
    (∀ f ∈ [("notes.txt", ["<node id=\"1\"/>"])], strEndsWith f.1 ".osm" = false) ∧
      merge_osm_files [("notes.txt", ["<node id=\"1\"/>"])] =
        ["<?xml version=\"1.0\" encoding=\"UTF-8\"?>", "<osm version=\"0.6\">", "</osm>"] :=
  ⟨by decide, merge_osm_files_empty _ (by decide)⟩

/-- C7 counterexample: on a failed call no sleep happens — `time.sleep(2)`
sits inside the `try` block after the write, so the `except` path skips it. -/
theorem fetch_sleep_cex :
    Ev.sleep 2 ∉
      fetch_osm_by_bbox ⟨22.5, 112.5, 22.6, 112.6⟩ "osm_data/guangzhou_part_1.osm"
        (.failure "connection error") := by
  simp [fetch_osm_by_bbox]

/-- C7 amended: the fetcher pauses for 2 seconds after each successful call
(as the final action, after writing the file); on the failure path no pause
occurs. -/
theorem fetch_sleep_amended (bbox : Bbox) (output_file : String) :
    (∀ body : String,
      (fetch_osm_by_bbox bbox output_file (.success body)).getLast? = some (.sleep 2)) ∧
    (∀ e : String, Ev.sleep 2 ∉ fetch_osm_by_bbox bbox output_file (.failure e)) := by
  constructor
  · intro body
    rfl
  · intro e
    simp [fetch_osm_by_bbox]

/-- C8: when a cell's network call fails, the fetcher just logs the error and
returns its trace normally (no exception escapes the model), every rectangle
of the driver loop still gets its POST attempted, and `main` still runs the
final merge. -/
theorem fetch_failure_continues (net : ℕ → NetResult) (k : ℕ) (e : String)
    (hk : net k = .failure e) :
    (∀ bbox output_file,
      fetch_osm_by_bbox bbox output_file (net k) =
        [.print ("正在抓取区域 " ++ bboxStr bbox ++ " 数据..."),
         .httpPost overpass_url (buildQuery bbox),
         .print ("请求失败：" ++ e)]) ∧
    (∀ bboxes : List Bbox, ∀ p ∈ bboxes.enum,
      Ev.httpPost overpass_url (buildQuery p.2) ∈ runFetchLoop bboxes net) ∧
    MainEv.mergeRun "osm_data" "guangzhou_full.osm" ∈ main_trace net := by
  refine ⟨?_, ?_, ?_⟩
  · intro bbox output_file
    rw [hk]
    rfl
  · intro bboxes p hp
    rw [runFetchLoop]
    refine List.mem_flatMap.mpr ⟨p, hp, ?_⟩
    cases net p.1 <;> simp [fetch_osm_by_bbox]
  · exact List.mem_append_right _ (List.mem_singleton.mpr rfl)

/-- Witness for C8 with every cell failing. -/
theorem fetch_failure_continues_witness :
    ((fun _ : ℕ => NetResult.failure "boom") 0 = NetResult.failure "boom") ∧
      MainEv.mergeRun "osm_data" "guangzhou_full.osm" ∈
        main_trace fun _ => NetResult.failure "boom" :=
  ⟨rfl, (fetch_failure_continues (fun _ => NetResult.failure "boom") 0 "boom" rfl).2.2⟩

/-- C9: a failed fetch performs no file write, so the file system — in
particular any pre-existing content at `output_file` — is left unchanged by
the error path (the status check precedes the file open). -/
theorem fetch_failure_no_write (bbox : Bbox) (output_file : String) (e : String) :
    (∀ path content,
      Ev.fileWrite path content ∉ fetch_osm_by_bbox bbox output_file (.failure e)) ∧
    (∀ fs : FileSys, applyEvents fs (fetch_osm_by_bbox bbox output_file (.failure e)) = fs) := by
  constructor
  · intro path content
    simp [fetch_osm_by_bbox]
  · intro fs
    rfl
